import Mathlib

/-!
Shallow embedding of the PiStepper stepper-motor driver (PiStepper.cpp /
PiStepper.h) and proofs about it.

Modelling conventions:
* `float` quantities (`_speed`, step delays, RPM) are modelled as `ℚ`.
* `int` quantities (step counts, directions, GPIO readings) are modelled
  as `ℤ` / `Int`.
* The two limit-switch input lines are modelled as functions `ℕ → Int`
  giving the value returned by `gpiod_line_get_value` at the i-th loop
  iteration of a move (the hardware may change between reads).
* Externally visible GPIO activity of a call is collected in a list of
  `GpioEvent`s, in program order.  A step pulse (set step line high,
  sleep half the delay, set it low, sleep the other half) is recorded as
  one `pulse` event carrying the two half-delays.
* `homeMotor`'s unbounded `while` loop is given explicit fuel and returns
  `none` when the fuel runs out; `some` corresponds to normal completion
  (the bottom limit switch eventually read ≠ 1).
-/

/-- Mutable state of a `PiStepper` object (the fields of the C++ class that
the claims are about).  `enabled` is the value of the enable GPIO line
(`enable()` writes 1, `disable()` writes 0); `dirLine` is the value last
written to the direction line. -/
structure StepperState where
  speed : ℚ
  stepsPerRevolution : ℤ
  microstepping : ℤ
  currentStepCount : ℤ
  isMoving : Bool
  enabled : Bool
  dirLine : Int
  deriving DecidableEq

/-- Externally visible GPIO activity, in program order. -/
inductive GpioEvent where
  | setDir (v : Int)
  | readTop (v : Int)
  | readBottom (v : Int)
  | pulse (highDur lowDur : ℚ)
  deriving DecidableEq

/-- Whether an event is a step pulse. -/
def GpioEvent.isPulse : GpioEvent → Bool
  | .pulse _ _ => true
  | _ => false

/-- Number of step pulses in an event trace. -/
def countPulses (evs : List GpioEvent) : ℕ :=
  evs.countP (fun e => e.isPulse)

/-- The per-pulse delay in microseconds, as computed in
`PiStepper::internalMoveSteps` and `PiStepper::homeMotor`:
`60.0 * 1000000 / (_speed * _stepsPerRevolution * _microstepping)`. -/
def stepDelay (speed : ℚ) (spr micro : ℤ) : ℚ :=
  60 * 1000000 / (speed * (spr : ℚ) * (micro : ℚ))

/-- The `for` loop of `PiStepper::internalMoveSteps`: at iteration `i`,
first read the top limit switch and break if it reads 0 while
`direction == 1`, then read the bottom limit switch and break if it reads
0 while `direction == 0`; otherwise emit one pulse (high `delay/2`, low
`delay/2`) and decrement (`direction == 0`) or increment (else) the step
counter.  Returns the final counter together with the event trace. -/
def moveLoop (top bottom : ℕ → Int) (direction : Int) (delay : ℚ) :
    ℕ → ℕ → ℤ → ℤ × List GpioEvent
  | _, 0, c => (c, [])
  | i, n + 1, c =>
    if top i = 0 ∧ direction = 1 then
      (c, [.readTop (top i)])
    else if bottom i = 0 ∧ direction = 0 then
      (c, [.readTop (top i), .readBottom (bottom i)])
    else
      ((moveLoop top bottom direction delay (i + 1) n
          (if direction = 0 then c - 1 else c + 1)).1,
       .readTop (top i) :: .readBottom (bottom i) ::
         .pulse (delay / 2) (delay / 2) ::
         (moveLoop top bottom direction delay (i + 1) n
           (if direction = 0 then c - 1 else c + 1)).2)

/-- `PiStepper::internalMoveSteps(steps, direction)`: enable the motor,
write the direction line, compute the fixed `stepDelay`, run the pulse
loop (`steps` is a C `int`; a non-positive value gives zero iterations),
then disable the motor. -/
def internalMoveSteps (top bottom : ℕ → Int) (steps : ℤ) (direction : Int)
    (s : StepperState) : StepperState × List GpioEvent :=
  let delay := stepDelay s.speed s.stepsPerRevolution s.microstepping
  let r := moveLoop top bottom direction delay 0 steps.toNat s.currentStepCount
  ({ s with currentStepCount := r.1, enabled := false, dirLine := direction },
   .setDir direction :: r.2)

/-- `PiStepper::moveSteps(steps, direction)`: under the `gpioMutex` lock,
set `_isMoving`, run `internalMoveSteps`, clear `_isMoving`. -/
def moveSteps (top bottom : ℕ → Int) (steps : ℤ) (direction : Int)
    (s : StepperState) : StepperState × List GpioEvent :=
  let r := internalMoveSteps top bottom steps direction { s with isMoving := true }
  ({ r.1 with isMoving := false }, r.2)

/-- Round-half-away-from-zero, the semantics of C++ `std::round`. -/
def roundHalfAway (q : ℚ) : ℤ :=
  if 0 ≤ q then ⌊q + 1 / 2⌋ else ⌈q - 1 / 2⌉

/-- The step count computed by `PiStepper::moveAngle`:
`std::round(angle * ((_stepsPerRevolution * _microstepping) / 360.0f))`. -/
def moveAngleSteps (angle : ℚ) (spr micro : ℤ) : ℤ :=
  roundHalfAway (angle * (((spr * micro : ℤ) : ℚ) / 360))

/-- `PiStepper::moveAngle(angle, direction)`: convert the angle to a step
count and delegate to `moveSteps`. -/
def moveAngle (top bottom : ℕ → Int) (angle : ℚ) (direction : Int)
    (s : StepperState) : StepperState × List GpioEvent :=
  moveSteps top bottom (moveAngleSteps angle s.stepsPerRevolution s.microstepping)
    direction s

/-- The `while` loop of `PiStepper::homeMotor`, with explicit fuel: while
the bottom limit switch reads 1, emit one pulse (half-high, half-low).
The loop body touches no field of the state; the state is threaded through
unchanged, mirroring the source, so that preservation is a theorem rather
than a convention. -/
def homeLoop (bottom : ℕ → Int) (delay : ℚ) :
    ℕ → ℕ → StepperState → Option (StepperState × List GpioEvent)
  | 0, _, _ => none
  | fuel + 1, k, s =>
    if bottom k = 1 then
      (homeLoop bottom delay fuel (k + 1) s).map fun r =>
        (r.1, .readBottom (bottom k) :: .pulse (delay / 2) (delay / 2) :: r.2)
    else
      some (s, [.readBottom (bottom k)])

/-- `PiStepper::homeMotor()`: enable the motor, set direction 0 (toward
the bottom limit switch), compute the delay from the current `_speed`,
loop until the bottom switch stops reading 1, then zero
`_currentStepCount` and disable the motor.  `none` models the loop not
terminating within `fuel` iterations. -/
def homeMotor (bottom : ℕ → Int) (fuel : ℕ) (s : StepperState) :
    Option (StepperState × List GpioEvent) :=
  let s1 := { s with enabled := true, dirLine := 0 }
  let delay := stepDelay s.speed s.stepsPerRevolution s.microstepping
  (homeLoop bottom delay fuel 0 s1).map fun r =>
    ({ r.1 with currentStepCount := 0, enabled := false },
     .setDir 0 :: r.2)

/-- `PiStepper::setSpeed(speed)`: stores the value with no validation. -/
def setSpeed (s : StepperState) (speed : ℚ) : StepperState :=
  { s with speed := speed }

/-- `PiStepper::moveStepsOverDuration(steps, durationSeconds)`: derive
`stepsPerSecond = steps / durationSeconds` and
`rpm = stepsPerSecond * 60 / (_stepsPerRevolution * _microstepping)`,
store it via `setSpeed`, then `moveSteps(steps, 1)`. -/
def moveStepsOverDuration (top bottom : ℕ → Int) (steps durationSeconds : ℤ)
    (s : StepperState) : StepperState × List GpioEvent :=
  let stepsPerSecond : ℚ := (steps : ℚ) / (durationSeconds : ℚ)
  let rpm : ℚ := stepsPerSecond * 60 / ((s.stepsPerRevolution * s.microstepping : ℤ) : ℚ)
  moveSteps top bottom steps 1 (setSpeed s rpm)

/-- `PiStepper::stopMovement()`: under the lock, clear `_isMoving` and
disable the motor. -/
def stopMovement (s : StepperState) : StepperState :=
  { s with isMoving := false, enabled := false }

/-- `PiStepper::emergencyStop()`: under the lock, clear `_isMoving`,
disable the motor and zero `_currentStepCount`, unconditionally. -/
def emergencyStop (s : StepperState) : StepperState :=
  { s with isMoving := false, enabled := false, currentStepCount := 0 }

/-- The state built by the `PiStepper` constructor (pins omitted: they do
not enter any claim): `_speed = 20`, `_currentStepCount = 0`,
`_isMoving = false`, motor disabled at the end (`disable()`), with the
geometry arguments stored unvalidated. -/
def construct (spr micro : ℤ) : StepperState :=
  { speed := 20, stepsPerRevolution := spr, microstepping := micro,
    currentStepCount := 0, isMoving := false, enabled := false, dirLine := 0 }

/-- The caller-facing blocking motion operations named by the spec. -/
inductive MotionOp where
  | moveSteps
  | moveAngle
  | moveStepsOverDuration
  | homeMotor
  | stopMovement
  | emergencyStop
  deriving DecidableEq

/-- Whether the operation's body holds `gpioMutex` while it touches the
GPIO lines, transcribed from the lock structure of PiStepper.cpp:
`moveSteps`, `stopMovement` and `emergencyStop` open with
`std::lock_guard<std::mutex> lock(gpioMutex)`; `moveAngle` and
`moveStepsOverDuration` issue all their GPIO activity inside the
`moveSteps` they delegate to; `homeMotor` contains no lock acquisition at
all and drives the step line directly. -/
def gpioUnderGate : MotionOp → Bool
  | .moveSteps => true
  | .moveAngle => true
  | .moveStepsOverDuration => true
  | .homeMotor => false
  | .stopMovement => true
  | .emergencyStop => true

/-! ### Helper lemmas about the pulse loop -/

@[simp] lemma GpioEvent.isPulse_setDir (v : Int) :
    (GpioEvent.setDir v).isPulse = false := rfl

@[simp] lemma GpioEvent.isPulse_readTop (v : Int) :
    (GpioEvent.readTop v).isPulse = false := rfl

@[simp] lemma GpioEvent.isPulse_readBottom (v : Int) :
    (GpioEvent.readBottom v).isPulse = false := rfl

@[simp] lemma GpioEvent.isPulse_pulse (a b : ℚ) :
    (GpioEvent.pulse a b).isPulse = true := rfl

/-- Pulse count of a cons cell. -/
@[simp] lemma countPulses_cons (e : GpioEvent) (l : List GpioEvent) :
    countPulses (e :: l) = countPulses l + (if e.isPulse then 1 else 0) := by
  simp [countPulses, List.countP_cons]

/-- If neither break condition can fire at any iteration, the loop runs all
`n` iterations: the counter moves by `n` in the requested direction and
exactly `n` pulses are emitted. -/
lemma moveLoop_no_break (top bottom : ℕ → Int) (d : Int) (delay : ℚ)
    (hbrk : ∀ i, ¬(top i = 0 ∧ d = 1) ∧ ¬(bottom i = 0 ∧ d = 0)) :
    ∀ n i c, (moveLoop top bottom d delay i n c).1
        = (if d = 0 then c - n else c + n) ∧
      countPulses (moveLoop top bottom d delay i n c).2 = n := by
  intro n
  induction n with
  | zero =>
    intro i c
    constructor
    · by_cases hd : d = 0 <;> simp [moveLoop, hd]
    · simp [moveLoop, countPulses]
  | succ n ih =>
    intro i c
    rw [moveLoop, if_neg (hbrk i).1, if_neg (hbrk i).2]
    obtain ⟨ih1, ih2⟩ := ih (i + 1) (if d = 0 then c - 1 else c + 1)
    constructor
    · simp only [ih1]
      by_cases hd : d = 0
      · simp only [hd, if_pos rfl]
        push_cast
        ring
      · rw [if_neg hd, if_neg hd, if_neg hd]
        push_cast
        ring
    · simp only [countPulses] at ih2 ⊢
      simp [List.countP_cons, ih2]

/-- With direction 1 and the top limit switch never reading 0, the loop
never breaks. -/
lemma moveLoop_forward_fst (top bottom : ℕ → Int) (delay : ℚ)
    (htop : ∀ i, top i ≠ 0) (n : ℕ) (i : ℕ) (c : ℤ) :
    (moveLoop top bottom 1 delay i n c).1 = c + n := by
  have h := (moveLoop_no_break top bottom 1 delay
    (fun j => ⟨fun hc => htop j hc.1, fun hc => absurd hc.2 (by decide)⟩) n i c).1
  simpa using h

/-- Pulse count for an uninterrupted forward run. -/
lemma moveLoop_forward_count (top bottom : ℕ → Int) (delay : ℚ)
    (htop : ∀ i, top i ≠ 0) (n : ℕ) (i : ℕ) (c : ℤ) :
    countPulses (moveLoop top bottom 1 delay i n c).2 = n :=
  (moveLoop_no_break top bottom 1 delay
    (fun j => ⟨fun hc => htop j hc.1, fun hc => absurd hc.2 (by decide)⟩) n i c).2

/-- With direction 0 and the bottom limit switch never reading 0, the loop
never breaks. -/
lemma moveLoop_backward_fst (top bottom : ℕ → Int) (delay : ℚ)
    (hbot : ∀ i, bottom i ≠ 0) (n : ℕ) (i : ℕ) (c : ℤ) :
    (moveLoop top bottom 0 delay i n c).1 = c - n := by
  have h := (moveLoop_no_break top bottom 0 delay
    (fun j => ⟨fun hc => absurd hc.2 (by decide), fun hc => hbot j hc.1⟩) n i c).1
  simpa using h

/-- With a direction outside {0, 1}, neither break condition can ever fire,
whatever the switches read. -/
lemma moveLoop_other_dir (top bottom : ℕ → Int) (d : Int) (delay : ℚ)
    (h0 : d ≠ 0) (h1 : d ≠ 1) (n : ℕ) (i : ℕ) (c : ℤ) :
    (moveLoop top bottom d delay i n c).1 = c + n ∧
      countPulses (moveLoop top bottom d delay i n c).2 = n := by
  have h := moveLoop_no_break top bottom d delay
    (fun j => ⟨fun hc => h1 hc.2, fun hc => h0 hc.2⟩) n i c
  rwa [if_neg h0] at h

/-- When neither break condition fires at iteration `i`, the loop emits a
pulse with the two half-delays at that iteration. -/
lemma moveLoop_pulse_mem_of_no_break (top bottom : ℕ → Int) (d : Int)
    (delay : ℚ) (i n : ℕ) (c : ℤ)
    (h1 : ¬(top i = 0 ∧ d = 1)) (h2 : ¬(bottom i = 0 ∧ d = 0)) :
    GpioEvent.pulse (delay / 2) (delay / 2)
      ∈ (moveLoop top bottom d delay i (n + 1) c).2 := by
  rw [moveLoop, if_neg h1, if_neg h2]
  simp

/-- Every pulse in a `moveLoop` trace carries the two half-delays
`delay / 2`. -/
lemma moveLoop_pulse_mem (top bottom : ℕ → Int) (d : Int) (delay : ℚ) :
    ∀ n i c hd ld,
      GpioEvent.pulse hd ld ∈ (moveLoop top bottom d delay i n c).2 →
      hd = delay / 2 ∧ ld = delay / 2 := by
  intro n
  induction n with
  | zero =>
    intro i c hd ld hm
    simp [moveLoop] at hm
  | succ n ih =>
    intro i c hd ld hm
    rw [moveLoop] at hm
    by_cases h1 : top i = 0 ∧ d = 1
    · rw [if_pos h1] at hm
      simp at hm
    · rw [if_neg h1] at hm
      by_cases h2 : bottom i = 0 ∧ d = 0
      · rw [if_pos h2] at hm
        simp at hm
      · rw [if_neg h2] at hm
        simp only [List.mem_cons] at hm
        rcases hm with h | h | h | h
        · exact absurd h (by simp)
        · exact absurd h (by simp)
        · simp only [GpioEvent.pulse.injEq] at h
          exact h
        · exact ih _ _ hd ld h

/-- The body of `homeMotor`'s `while` loop modifies no field of the state:
on normal completion the state comes out exactly as it went in. -/
lemma homeLoop_state (bottom : ℕ → Int) (delay : ℚ) :
    ∀ fuel k s r, homeLoop bottom delay fuel k s = some r → r.1 = s := by
  intro fuel
  induction fuel with
  | zero =>
    intro k s r h
    simp [homeLoop] at h
  | succ fuel ih =>
    intro k s r h
    rw [homeLoop] at h
    by_cases hb : bottom k = 1
    · rw [if_pos hb] at h
      cases hr : homeLoop bottom delay fuel (k + 1) s with
      | none => rw [hr] at h; simp at h
      | some r' =>
        rw [hr] at h
        simp only [Option.map_some', Option.some.injEq] at h
        have := ih (k + 1) s r' hr
        rw [← h]
        exact this
    · rw [if_neg hb] at h
      simp only [Option.some.injEq] at h
      rw [← h]

/-! ### Claim theorems -/

/-- C1: for every speed > 0 and positive geometry, each pulse the pulse
engine (`internalMoveSteps`) issues has equal high and low halves, and the
two halves sum to `60,000,000 / (speed × stepsPerRevolution ×
microstepping)` microseconds — the same value for every pulse of the move,
since the delay is computed once before the loop. -/
theorem C1_pulse_delay (top bottom : ℕ → Int) (steps : ℤ) (direction : Int)
    (s : StepperState) (hspeed : 0 < s.speed)
    (hspr : 0 < s.stepsPerRevolution) (hmicro : 0 < s.microstepping)
    (hd ld : ℚ)
    (hm : GpioEvent.pulse hd ld ∈ (internalMoveSteps top bottom steps direction s).2) :
    hd = ld ∧
      hd + ld = 60 * 1000000 /
        (s.speed * (s.stepsPerRevolution : ℚ) * (s.microstepping : ℚ)) := by
  simp only [internalMoveSteps, List.mem_cons] at hm
  rcases hm with h | h
  · exact absurd h (by simp)
  · obtain ⟨h1, h2⟩ := moveLoop_pulse_mem top bottom direction _ _ _ _ hd ld h
    subst h1
    subst h2
    refine ⟨rfl, ?_⟩
    rw [stepDelay]
    ring

/-- Witness for C1 at a concrete input: speed 20 RPM, geometry 200 × 8,
a 2-step forward move with both switches reading 1. -/
theorem C1_pulse_delay_witness :
    stepDelay 20 200 8 / 2 = stepDelay 20 200 8 / 2 ∧
      stepDelay 20 200 8 / 2 + stepDelay 20 200 8 / 2 = stepDelay 20 200 8 :=
  C1_pulse_delay (fun _ => 1) (fun _ => 1) 2 1 (construct 200 8)
    (by norm_num [construct]) (by norm_num [construct]) (by norm_num [construct])
    (stepDelay 20 200 8 / 2) (stepDelay 20 200 8 / 2)
    (by
      simp only [internalMoveSteps]
      exact List.mem_cons_of_mem _
        (moveLoop_pulse_mem_of_no_break (fun _ => 1) (fun _ => 1) 1
          (stepDelay 20 200 8) 0 1 0 (by simp) (by simp)))

/-- C2: for every n ≥ 0 and every starting counter value, `moveSteps(n, 1)`
followed by `moveSteps(n, 0)` with no limit switch reading 0 during either
call returns `_currentStepCount` to its value before the first call. -/
theorem C2_round_trip (top bottom : ℕ → Int) (n : ℤ) (s : StepperState)
    (htop : ∀ i, top i ≠ 0) (hbot : ∀ i, bottom i ≠ 0) (hn : 0 ≤ n) :
    ((moveSteps top bottom n 0 (moveSteps top bottom n 1 s).1).1).currentStepCount
      = s.currentStepCount := by
  simp only [moveSteps, internalMoveSteps]
  rw [moveLoop_forward_fst top bottom _ htop, moveLoop_backward_fst top bottom _ hbot]
  ring

/-- Witness for C2: a 3-step round trip from the freshly constructed state. -/
theorem C2_round_trip_witness :
    ((moveSteps (fun _ => 1) (fun _ => 1) 3 0
        (moveSteps (fun _ => 1) (fun _ => 1) 3 1 (construct 200 8)).1).1).currentStepCount
      = (construct 200 8).currentStepCount :=
  C2_round_trip (fun _ => 1) (fun _ => 1) 3 (construct 200 8)
    (fun _ => one_ne_zero) (fun _ => one_ne_zero) (by decide)

/-- C3: for a move in direction d ∈ {0, 1} whose direction-of-travel limit
switch already reads 0 before the first pulse, `moveSteps` issues zero
pulses and leaves `_currentStepCount` unchanged. -/
theorem C3_limit_preasserted (top bottom : ℕ → Int) (n : ℤ) (d : Int)
    (s : StepperState)
    (hassert : (d = 1 ∧ top 0 = 0) ∨ (d = 0 ∧ bottom 0 = 0)) :
    ((moveSteps top bottom n d s).1).currentStepCount = s.currentStepCount ∧
      countPulses (moveSteps top bottom n d s).2 = 0 := by
  rcases hassert with ⟨hd1, htop0⟩ | ⟨hd0, hbot0⟩
  · subst hd1
    simp only [moveSteps, internalMoveSteps]
    cases hn : n.toNat with
    | zero => simp [moveLoop, countPulses]
    | succ m =>
      rw [moveLoop, if_pos ⟨htop0, rfl⟩]
      simp [countPulses]
  · subst hd0
    simp only [moveSteps, internalMoveSteps]
    cases hn : n.toNat with
    | zero => simp [moveLoop, countPulses]
    | succ m =>
      rw [moveLoop, if_neg (by simp : ¬(top 0 = 0 ∧ (0 : Int) = 1)),
        if_pos ⟨hbot0, rfl⟩]
      simp [countPulses]

/-- Witness for C3: a forward 5-step request with the top switch already
reading 0 issues no pulse and leaves the counter at 0. -/
theorem C3_limit_preasserted_witness :
    ((moveSteps (fun _ => 0) (fun _ => 1) 5 1 (construct 200 8)).1).currentStepCount
        = (construct 200 8).currentStepCount ∧
      countPulses (moveSteps (fun _ => 0) (fun _ => 1) 5 1 (construct 200 8)).2 = 0 :=
  C3_limit_preasserted (fun _ => 0) (fun _ => 1) 5 1 (construct 200 8)
    (Or.inl ⟨rfl, rfl⟩)

/-- C4: on normal completion (the bottom limit switch eventually stops
reading 1 within the given fuel), `homeMotor` leaves `_currentStepCount`
equal to 0 and the motor disabled, regardless of the counter's prior
value; moreover its pulse loop performs no counter update at all — the
loop returns the state with the counter it was entered with, the reset to
0 happening only after the loop exits. -/
theorem C4_homeMotor_zeroes_counter :
    (∀ (bottom : ℕ → Int) (fuel : ℕ) (s s' : StepperState) (evs : List GpioEvent),
        homeMotor bottom fuel s = some (s', evs) →
        s'.currentStepCount = 0 ∧ s'.enabled = false) ∧
    (∀ (bottom : ℕ → Int) (delay : ℚ) (fuel k : ℕ) (t t' : StepperState)
        (evs : List GpioEvent),
        homeLoop bottom delay fuel k t = some (t', evs) →
        t'.currentStepCount = t.currentStepCount) := by
  constructor
  · intro bottom fuel s s' evs h
    simp only [homeMotor] at h
    cases hr : homeLoop bottom
        (stepDelay s.speed s.stepsPerRevolution s.microstepping) fuel 0
        { s with enabled := true, dirLine := 0 } with
    | none => rw [hr] at h; simp at h
    | some r =>
      rw [hr] at h
      simp only [Option.map_some', Option.some.injEq, Prod.mk.injEq] at h
      obtain ⟨h1, -⟩ := h
      rw [← h1]
      exact ⟨rfl, rfl⟩
  · intro bottom delay fuel k t t' evs h
    have ht := homeLoop_state bottom delay fuel k t (t', evs) h
    simp only at ht
    rw [ht]

/-- Witness for C4: homing from counter 7 with the bottom switch clear for
two reads and then asserted lands exactly on the freshly constructed
state: counter 0, motor disabled. -/
theorem C4_homeMotor_zeroes_counter_witness :
    (construct 200 8).currentStepCount = 0 ∧ (construct 200 8).enabled = false :=
  C4_homeMotor_zeroes_counter.1 (fun k => if k < 2 then 1 else 0) 5
    { construct 200 8 with currentStepCount := 7 } (construct 200 8)
    [GpioEvent.setDir 0, GpioEvent.readBottom 1,
     GpioEvent.pulse (stepDelay 20 200 8 / 2) (stepDelay 20 200 8 / 2),
     GpioEvent.readBottom 1,
     GpioEvent.pulse (stepDelay 20 200 8 / 2) (stepDelay 20 200 8 / 2),
     GpioEvent.readBottom 0]
    rfl

/-- C5 (code bug): the claim that every caller-facing blocking motion
operation holds `gpioMutex` for its duration fails at `homeMotor`: the
body of `PiStepper::homeMotor` contains no lock acquisition while it
drives the step line, whereas `moveSteps`, `stopMovement` and
`emergencyStop` do lock (and `moveAngle` / `moveStepsOverDuration` issue
their GPIO activity inside the `moveSteps` they delegate to), so a
concurrent `homeMotor` can interleave its pulses with another motion
call. -/
theorem C5_homeMotor_unguarded :
    gpioUnderGate MotionOp.homeMotor = false ∧
    gpioUnderGate MotionOp.moveSteps = true ∧
    gpioUnderGate MotionOp.moveAngle = true ∧
    gpioUnderGate MotionOp.moveStepsOverDuration = true ∧
    gpioUnderGate MotionOp.stopMovement = true ∧
    gpioUnderGate MotionOp.emergencyStop = true :=
  ⟨rfl, rfl, rfl, rfl, rfl, rfl⟩

/-- Round-half-away-from-zero of an integer is that integer. -/
lemma roundHalfAway_intCast (m : ℤ) : roundHalfAway (m : ℚ) = m := by
  rw [roundHalfAway]
  by_cases h : (0 : ℚ) ≤ (m : ℚ)
  · rw [if_pos h, Int.floor_int_add]
    norm_num
  · rw [if_neg h, show (m : ℚ) - 1 / 2 = -(1 / 2) + (m : ℚ) by ring,
      Int.ceil_add_int]
    norm_num

/-- C6: `moveAngle` computes its step count as round-half-away-from-zero
of `angle × stepsPerRevolution × microstepping / 360`; `moveAngle(360, 1)`
issues exactly `stepsPerRevolution × microstepping` pulses when no limit
switch reads 0; and with geometry 200 × 8, `moveAngle(90, 1)` computes 400
steps, issues 400 pulses and moves the counter by +400. -/
theorem C6_moveAngle_steps (angle : ℚ) (spr micro : ℤ) (top bottom : ℕ → Int)
    (s : StepperState) (k : ℤ)
    (htop : ∀ i, top i ≠ 0)
    (hspr : 0 < s.stepsPerRevolution) (hmicro : 0 < s.microstepping) :
    moveAngleSteps angle spr micro
        = roundHalfAway (angle * (spr : ℚ) * (micro : ℚ) / 360) ∧
    moveAngleSteps 360 spr micro = spr * micro ∧
    (countPulses (moveAngle top bottom 360 1 s).2 : ℤ)
        = s.stepsPerRevolution * s.microstepping ∧
    moveAngleSteps 90 200 8 = 400 ∧
    countPulses (moveAngle top bottom 90 1
        { construct 200 8 with currentStepCount := k }).2 = 400 ∧
    ((moveAngle top bottom 90 1
        { construct 200 8 with currentStepCount := k }).1).currentStepCount
      = k + 400 := by
  have hround : ∀ a b : ℤ, moveAngleSteps 360 a b = a * b := by
    intro a b
    rw [moveAngleSteps,
      show (360 : ℚ) * (((a * b : ℤ) : ℚ) / 360) = ((a * b : ℤ) : ℚ) by
        field_simp,
      roundHalfAway_intCast]
  have h90 : moveAngleSteps 90 200 8 = 400 := by
    rw [moveAngleSteps,
      show (90 : ℚ) * ((((200 : ℤ) * 8 : ℤ) : ℚ) / 360) = ((400 : ℤ) : ℚ) by
        norm_num,
      roundHalfAway_intCast]
  refine ⟨?_, hround spr micro, ?_, h90, ?_, ?_⟩
  · rw [moveAngleSteps]
    congr 1
    push_cast
    ring
  · simp only [moveAngle, moveSteps, internalMoveSteps]
    rw [hround s.stepsPerRevolution s.microstepping, countPulses_cons,
      moveLoop_forward_count top bottom _ htop]
    simp [Int.toNat_of_nonneg (le_of_lt (mul_pos hspr hmicro))]
  · simp only [moveAngle, moveSteps, internalMoveSteps, construct]
    rw [h90, countPulses_cons, moveLoop_forward_count top bottom _ htop]
    simp
  · simp only [moveAngle, moveSteps, internalMoveSteps, construct]
    rw [h90, moveLoop_forward_fst top bottom _ htop]
    simp

/-- Witness for C6 at angle 45, geometry 200 × 8, both switches reading 1,
starting counter 5. -/
theorem C6_moveAngle_steps_witness :
    moveAngleSteps 45 200 8
        = roundHalfAway (45 * ((200 : ℤ) : ℚ) * ((8 : ℤ) : ℚ) / 360) ∧
    moveAngleSteps 360 200 8 = 200 * 8 ∧
    (countPulses (moveAngle (fun _ => 1) (fun _ => 1) 360 1 (construct 200 8)).2 : ℤ)
        = (construct 200 8).stepsPerRevolution * (construct 200 8).microstepping ∧
    moveAngleSteps 90 200 8 = 400 ∧
    countPulses (moveAngle (fun _ => 1) (fun _ => 1) 90 1
        { construct 200 8 with currentStepCount := 5 }).2 = 400 ∧
    ((moveAngle (fun _ => 1) (fun _ => 1) 90 1
        { construct 200 8 with currentStepCount := 5 }).1).currentStepCount
      = 5 + 400 :=
  C6_moveAngle_steps 45 200 8 (fun _ => 1) (fun _ => 1) (construct 200 8) 5
    (fun _ => one_ne_zero) (by decide) (by decide)

/-- C7 (code bug): neither `setSpeed` nor the constructor validates its
argument — a zero or negative speed and a zero `stepsPerRevolution` are
stored as-is, no InvalidParameter condition exists anywhere in the class,
and a subsequent move still runs its pulse loop, so the delay formula is
reached with a non-positive divisor (in the C++ source `60.0e6 / 0.0` is a
float infinity; in this ℚ model division by zero returns 0). -/
theorem C7_no_parameter_validation :
    (setSpeed (construct 200 8) 0).speed = 0 ∧
    (setSpeed (construct 200 8) (-5)).speed = -5 ∧
    (construct 0 8).stepsPerRevolution = 0 ∧
    countPulses (internalMoveSteps (fun _ => 1) (fun _ => 1) 1 1
        (setSpeed (construct 200 8) 0)).2 = 1 :=
  ⟨rfl, rfl, rfl, rfl⟩

/-- C8: `moveStepsOverDuration` overwrites the shared speed with
`(steps / durationSeconds) × 60 / (stepsPerRevolution × microstepping)`
RPM and the new value survives the whole call (the pulse engine never
writes the speed back); the move it performs is exactly
`moveSteps(steps, 1)` on the re-sped state, whose first GPIO action writes
1 (Forward) to the direction line. -/
theorem C8_moveStepsOverDuration_speed (top bottom : ℕ → Int)
    (steps dur : ℤ) (s : StepperState) :
    ((moveStepsOverDuration top bottom steps dur s).1).speed
        = (steps : ℚ) / (dur : ℚ) * 60
          / ((s.stepsPerRevolution : ℚ) * (s.microstepping : ℚ)) ∧
    ((moveStepsOverDuration top bottom steps dur s).2).head?
        = some (GpioEvent.setDir 1) ∧
    moveStepsOverDuration top bottom steps dur s
        = moveSteps top bottom steps 1 (setSpeed s
            ((steps : ℚ) / (dur : ℚ) * 60
              / ((s.stepsPerRevolution * s.microstepping : ℤ) : ℚ))) := by
  refine ⟨?_, rfl, rfl⟩
  simp only [moveStepsOverDuration, moveSteps, internalMoveSteps, setSpeed]
  push_cast
  ring

/-- C9: `emergencyStop` unconditionally leaves the motor disabled, the
motion state idle (`_isMoving = false`), and the position counter at 0,
for every prior state. -/
theorem C9_emergencyStop_resets (s : StepperState) :
    (emergencyStop s).enabled = false ∧ (emergencyStop s).isMoving = false ∧
      (emergencyStop s).currentStepCount = 0 :=
  ⟨rfl, rfl, rfl⟩

/-- C10 counterexample: with direction 2 (outside {0, 1}) and one
requested step, the pulse engine still consults a limit switch before the
pulse — the move's trace contains a read of the top limit switch — so the
claim that it "consults neither limit switch" is false on the code (the
`&&` in the break conditions short-circuits only the direction test, not
the GPIO read, which is the left operand). -/
theorem C10_counterexample :
    GpioEvent.readTop 1
      ∈ (internalMoveSteps (fun _ => 1) (fun _ => 1) 1 2 (construct 200 8)).2 :=
  List.Mem.tail _ (List.Mem.head _)

/-- C10 (amended): for a move of n > 0 steps with a direction outside
{0, 1}, no early stop is possible whatever the limit switches read (both
break conditions require direction 0 or 1): all n pulses are issued and
the counter increments by exactly n — any direction other than 0 is
counted as forward.  The engine does still read both switches before each
pulse; only that part of the original claim fails. -/
theorem C10_nonstandard_direction (top bottom : ℕ → Int) (n : ℤ) (d : Int)
    (s : StepperState) (hn : 0 < n) (h0 : d ≠ 0) (h1 : d ≠ 1) :
    countPulses (moveSteps top bottom n d s).2 = n.toNat ∧
    ((moveSteps top bottom n d s).1).currentStepCount
        = s.currentStepCount + n := by
  obtain ⟨hfst, hcnt⟩ := moveLoop_other_dir top bottom d
    (stepDelay s.speed s.stepsPerRevolution s.microstepping) h0 h1 n.toNat 0
    s.currentStepCount
  constructor
  · simp only [moveSteps, internalMoveSteps, countPulses_cons]
    simp [hcnt]
  · simp only [moveSteps, internalMoveSteps]
    rw [hfst, Int.toNat_of_nonneg (le_of_lt hn)]

/-- Witness for the amended C10: a 2-step move with direction 2 and both
switches reading 0 (both "asserted") still issues both pulses and adds 2
to the counter. -/
theorem C10_nonstandard_direction_witness :
    countPulses (moveSteps (fun _ => 0) (fun _ => 0) 2 2 (construct 200 8)).2
        = (2 : ℤ).toNat ∧
    ((moveSteps (fun _ => 0) (fun _ => 0) 2 2 (construct 200 8)).1).currentStepCount
        = (construct 200 8).currentStepCount + 2 :=
  C10_nonstandard_direction (fun _ => 0) (fun _ => 0) 2 2 (construct 200 8)
    (by decide) (by decide) (by decide)
